import Mathlib

/-!
Shallow embedding of the octahedral-impostor core of the `webgpu-impostors`
repository, and proofs of its specified properties.

The embedded code comes from:
* `src/utils/octahedralHelper.js`   — octahedral geometry builder,
* `src/utils/octahedralImpostorMath.js` — direction encoding, barycentric
  computation, sampling cache and lookup,
* `src/hooks/useOctahedralAtlas.js` — atlas bake loop and the per-key
  cache / pending-promise deduplication protocol,
* `src/OctahedralImpostor.jsx`      — the per-frame hysteresis update.

JS floating-point numbers are modeled as exact rationals (`ℚ`) where the
code only performs field operations, and as reals (`ℝ`) where a square
root or a transcendental comparison is involved.  The one place where a
division by zero matters (the checkerboard alternation key at grid size 1)
is modeled explicitly with `Option`, `none` standing for the IEEE NaN that
the source produces there.
-/

namespace WebgpuImpostors

/-- A 3D point with exact rational coordinates.  The source stores points in a
flat array `[x0, y0, z0, x1, ...]`; vertex `i` of the flat array is element
`i` of this list. -/
abbrev Vec3Q := ℚ × ℚ × ℚ

/-- `createGrid(xCells, yCells, width, height, useCenter)` from
`src/utils/octahedralHelper.js`.  The source loops `yi = 0 .. yCells`
(inclusive) and pushes one `(x, 0, z)` triple per `xi = 0 .. xCells`.
At `xCells = 0` the source produces NaN coordinates (`1/0 = Infinity`,
`0 * Infinity = NaN`); rational division by zero yields `0` here instead —
no theorem below relies on the coordinate values at grid size `0`. -/
def createGrid (xCells yCells : ℤ) (width height : ℚ) (useCenter : Bool) : List Vec3Q :=
  let xInc := width / (xCells : ℚ)
  let yInc := height / (yCells : ℚ)
  let ox : ℚ := if useCenter then -width * (1/2) else 0
  let oz : ℚ := if useCenter then -height * (1/2) else 0
  (List.range (yCells + 1).toNat).flatMap (fun (yi : ℕ) =>
    let z := (yi : ℚ) * yInc
    (List.range (xCells + 1).toNat).map (fun (xi : ℕ) =>
      let x := (xi : ℚ) * xInc
      (x + ox, 0, z + oz)))

/-- The checkerboard alternation key
`(Math.floor(x / xHalf) + Math.floor(y / yHalf)) % 2` of `octPlaneIndices`.
When `xHalf = 0` or `yHalf = 0` the JS value is NaN (`0/0 = NaN`, and
`Infinity % 2 = NaN`), and NaN compares unequal (`===`) to every number;
`none` models that NaN. -/
def altKey (x y : ℕ) (xHalf yHalf : ℤ) : Option ℤ :=
  if xHalf = 0 ∨ yHalf = 0 then none
  else some ((⌊(x : ℚ) / (xHalf : ℚ)⌋ + ⌊(y : ℚ) / (yHalf : ℚ)⌋) % 2)

/-- The six indices pushed by `octPlaneIndices` for the cell at row `y`,
column `x`: `a,b,c,c,d,a` (backward slash) when the alternation key equals
`isFull`, else `d,a,b,b,c,d` (forward slash). -/
def octCellIndices (isFull xLen xHalf yHalf : ℤ) (y x : ℕ) : List ℤ :=
  let r0 := xLen * (y : ℤ)
  let r1 := xLen * ((y : ℤ) + 1)
  let a := r0 + (x : ℤ)
  let b := r1 + (x : ℤ)
  let c := r1 + (x : ℤ) + 1
  let d := r0 + (x : ℤ) + 1
  if altKey x y xHalf yHalf = some isFull then [a, b, c, c, d, a] else [d, a, b, b, c, d]

/-- `octPlaneIndices(isFull, xCells, yCells)` from
`src/utils/octahedralHelper.js`: two triangles (six indices) per grid cell,
rows outer, columns inner. -/
def octPlaneIndices (isFull xCells yCells : ℤ) : List ℤ :=
  let xLen := xCells + 1
  let xHalf := ⌊(xCells : ℚ) * (1/2)⌋
  let yHalf := ⌊(yCells : ℚ) * (1/2)⌋
  (List.range yCells.toNat).flatMap (fun (y : ℕ) =>
    (List.range xCells.toNat).flatMap (fun (x : ℕ) =>
      octCellIndices isFull xLen xHalf yHalf y x))

/-- `Math.sign`: `1` for positive, `-1` for negative, `0` for zero. -/
def jsSign (q : ℚ) : ℚ := if 0 < q then 1 else if q < 0 then -1 else 0

/-- The per-point body of `octHemi` (hemisphere fold), up to but excluding the
final normalize-and-scale step, which is `normalizeScale` below. -/
def octHemiPre (p : Vec3Q) : Vec3Q :=
  let ox := p.1 + 1/2
  let oy := p.2.2 + 1/2
  let x := ox - oy
  let z := -1 + ox + oy
  let y := 1 - |x| - |z|
  (x, y, z)

/-- The per-point body of `octFull` (full-octahedron fold), up to but
excluding the final normalize-and-scale step.  Note the southern branch
(`y < 0`) reflects `x, z` and then *recomputes* `y = 1 - |x| - |z|`, which is
nonnegative — exactly as the source does. -/
def octFullPre (p : Vec3Q) : Vec3Q :=
  let u := p.1 * 2
  let v := p.2.2 * 2
  let x := u
  let z := v
  let y := 1 - |x| - |z|
  if y < 0 then
    let ox := x
    let oz := z
    let x2 := jsSign ox * (1 - |oz|)
    let z2 := jsSign oz * (1 - |ox|)
    let y2 := 1 - |x2| - |z2|
    (x2, y2, z2)
  else
    (x, y, z)

/-- The squared Euclidean norm of a rational point. -/
def sqNormQ (p : Vec3Q) : ℚ := p.1 ^ 2 + p.2.1 ^ 2 + p.2.2 ^ 2

/-- The final step of both folds: divide by `m = Math.sqrt(x² + y² + z²)` and
scale by the fixed `radius = 0.5`. -/
noncomputable def normalizeScale (p : Vec3Q) : ℝ × ℝ × ℝ :=
  let m := Real.sqrt ((sqNormQ p : ℚ) : ℝ)
  (((p.1 : ℝ) / m) * (1/2), ((p.2.1 : ℝ) / m) * (1/2), ((p.2.2 : ℝ) / m) * (1/2))

/-- Result of `buildOctahedralMesh`: the planar lattice, the folded points
(kept here before the final `normalizeScale`, which maps into `ℝ`), and the
triangle index list.  The THREE.js `geometry`/`normals` side products are
not modeled; no claim concerns them. -/
structure OctMesh where
  pntPlane : List Vec3Q
  pntOctPre : List Vec3Q
  indices : List ℤ
deriving DecidableEq

/-- `buildOctahedralMesh(octType, gridSize)`: grid, indices, then the fold
selected by the `switch` — `OCT_TYPE.HEMI = 0`, `OCT_TYPE.FULL = 1`, any
other type throws. -/
def buildOctahedralMesh (octType gridSize : ℤ) : Except String OctMesh :=
  let pntPlane := createGrid gridSize gridSize 1 1 true
  let indices := octPlaneIndices octType gridSize gridSize
  if octType = 0 then
    Except.ok ⟨pntPlane, pntPlane.map octHemiPre, indices⟩
  else if octType = 1 then
    Except.ok ⟨pntPlane, pntPlane.map octFullPre, indices⟩
  else
    Except.error ("Unknown octahedron type: " ++ toString octType)

/-- The shared epsilon `1e-9` of `octahedralImpostorMath.js`. -/
noncomputable def epsR : ℝ := 1 / 1000000000

/-- `encodeDirectionToOctUV(direction)` from
`src/utils/octahedralImpostorMath.js`: project onto the octahedron via
`1 / (|x| + |y| + |z| + 1e-9)`, fold the lower hemisphere up, and map to
`[0,1]²`.  JS `nx >= 0 ? 1 : -1` is the `if 0 ≤ nx` term. -/
noncomputable def encodeDirectionToOctUV (d : ℝ × ℝ × ℝ) : ℝ × ℝ :=
  let x := d.1
  let y := d.2.1
  let z := d.2.2
  let invSum := 1 / (|x| + |y| + |z| + epsR)
  let nx := x * invSum
  let ny := y * invSum
  let nz := z * invSum
  if ny < 0 then
    let signX : ℝ := if 0 ≤ nx then 1 else -1
    let signZ : ℝ := if 0 ≤ nz then 1 else -1
    let newX := (1 - |nz|) * signX
    let newZ := (1 - |nx|) * signZ
    (newX * (1/2) + 1/2, newZ * (1/2) + 1/2)
  else
    (nx * (1/2) + 1/2, nz * (1/2) + 1/2)

/-- A 2D UV triangle, three corner pairs. -/
abbrev TriUV := (ℝ × ℝ) × (ℝ × ℝ) × (ℝ × ℝ)

/-- The cross-product denominator `v0x * v1y - v1x * v0y` of
`computeBarycentric2D`. -/
noncomputable def baryDenom (t : TriUV) : ℝ :=
  let ax := t.1.1
  let ay := t.1.2
  let bx := t.2.1.1
  let by2 := t.2.1.2
  let cx := t.2.2.1
  let cy := t.2.2.2
  (bx - ax) * (cy - ay) - (cx - ax) * (by2 - ay)

/-- The raw (un-clamped) barycentric coordinates `(v, w)` of
`computeBarycentric2D` (and `u = 1 - v - w`). -/
noncomputable def baryRawVW (px py : ℝ) (t : TriUV) : ℝ × ℝ :=
  let ax := t.1.1
  let ay := t.1.2
  let bx := t.2.1.1
  let by2 := t.2.1.2
  let cx := t.2.2.1
  let cy := t.2.2.2
  let v0x := bx - ax
  let v0y := by2 - ay
  let v1x := cx - ax
  let v1y := cy - ay
  let v2x := px - ax
  let v2y := py - ay
  let invDenom := 1 / baryDenom t
  ((v2x * v1y - v1x * v2y) * invDenom, (v0x * v2y - v2x * v0y) * invDenom)

/-- `clampedU + clampedV + clampedW` of `computeBarycentric2D`. -/
noncomputable def baryClampedSum (px py : ℝ) (t : TriUV) : ℝ :=
  let vw := baryRawVW px py t
  max (1 - vw.1 - vw.2) 0 + max vw.1 0 + max vw.2 0

/-- `computeBarycentric2D(px, py, triangleUV, target)` from
`src/utils/octahedralImpostorMath.js`, returning the written target
`(u, v, w)`.  Degenerate denominator (`|denom| < 1e-9`) and non-positive
clamped sum both fall back to `(1/3, 1/3, 1/3)`; otherwise the clamped
components are renormalized by their sum. -/
noncomputable def computeBarycentric2D (px py : ℝ) (t : TriUV) : ℝ × ℝ × ℝ :=
  if |baryDenom t| < epsR then (1/3, 1/3, 1/3)
  else if baryClampedSum px py t ≤ 0 then (1/3, 1/3, 1/3)
  else
    let vw := baryRawVW px py t
    let s := baryClampedSum px py t
    (max (1 - vw.1 - vw.2) 0 / s, max vw.1 0 / s, max vw.2 0 / s)

/-- One triangle record of a sampling-cache cell: three vertex indices into
the octahedral mesh point arrays and the canonical UV corners. -/
structure OctTriangle where
  tidx : ℤ × ℤ × ℤ
  uv : (ℚ × ℚ) × (ℚ × ℚ) × (ℚ × ℚ)
deriving DecidableEq

/-- One cell of the sampling cache: the diagonal-orientation flag and the two
triangles tiling the cell. -/
structure OctCell where
  isBackslash : Bool
  tri0 : OctTriangle
  tri1 : OctTriangle
deriving DecidableEq

/-- The sampling cache of `buildSamplingCache`. -/
structure SamplingCache where
  gridSize : ℤ
  octType : ℤ
  cells : List OctCell
deriving DecidableEq

/-- Cast the stored rational UV corners to the real triangle used by
`computeBarycentric2D`. -/
def castUV (u : (ℚ × ℚ) × (ℚ × ℚ) × (ℚ × ℚ)) : TriUV :=
  (((u.1.1 : ℝ), (u.1.2 : ℝ)), ((u.2.1.1 : ℝ), (u.2.1.2 : ℝ)), ((u.2.2.1 : ℝ), (u.2.2.2 : ℝ)))

/-- The cell built by `buildSamplingCache` for cell number `cellIdx`
(`= row * gridSize + col`): the source walks the index buffer with a cursor
advancing by 6 per cell in the same row-major order used to generate it, so
the cursor for cell `k` is `6 * k`.  `isBackslash` checks
`tri1[1] - tri1[0] === stride && tri1[2] - tri1[1] === 1`. -/
def mkCell (indexArray : List ℤ) (stride : ℤ) (cellIdx : ℕ) : OctCell :=
  let cursor := 6 * cellIdx
  let i0 := indexArray.getD cursor 0
  let i1 := indexArray.getD (cursor + 1) 0
  let i2 := indexArray.getD (cursor + 2) 0
  let j0 := indexArray.getD (cursor + 3) 0
  let j1 := indexArray.getD (cursor + 4) 0
  let j2 := indexArray.getD (cursor + 5) 0
  if i1 - i0 = stride ∧ i2 - i1 = 1 then
    ⟨true, ⟨(i0, i1, i2), ((0, 0), (0, 1), (1, 1))⟩, ⟨(j0, j1, j2), ((1, 1), (1, 0), (0, 0))⟩⟩
  else
    ⟨false, ⟨(i0, i1, i2), ((1, 0), (0, 0), (0, 1))⟩, ⟨(j0, j1, j2), ((0, 1), (1, 1), (1, 0))⟩⟩

/-- `buildSamplingCache(octType, gridSize)` from
`src/utils/octahedralImpostorMath.js`, without the process-wide memo `Map`
(memoization of a pure function does not change its value).  The
`!indexAttr` branch of the source is unreachable because `setIndex` is
always called with the generated index list. -/
def buildSamplingCache (octType gridSize : ℤ) : Except String SamplingCache :=
  (buildOctahedralMesh octType gridSize).map (fun mesh =>
    let stride := gridSize + 1
    let cells := (List.range (gridSize * gridSize).toNat).map
      (fun k => mkCell mesh.indices stride k)
    ⟨gridSize, octType, cells⟩)

/-- `sampleOctahedralDirection({direction, cache, indicesTarget,
weightsTarget})`: encode the direction, clamp the containing cell to
`[0, gridSize-1]` and the local coordinates to `[0, 0.999999]`, pick the
triangle by the diagonal rule, and return the written targets.  `none`
models `return false` (the `cache.cells[...]` lookup being `undefined`). -/
noncomputable def sampleOctahedralDirection (direction : ℝ × ℝ × ℝ)
    (cache : SamplingCache) : Option ((ℤ × ℤ × ℤ) × (ℝ × ℝ × ℝ)) :=
  let uv := encodeDirectionToOctUV direction
  let g := cache.gridSize
  let scaledU := uv.1 * (g : ℝ)
  let scaledV := uv.2 * (g : ℝ)
  let col : ℤ := min (max ⌊scaledU⌋ 0) (g - 1)
  let row : ℤ := min (max ⌊scaledV⌋ 0) (g - 1)
  let localU : ℝ := min (max (scaledU - (col : ℝ)) 0) (999999 / 1000000)
  let localV : ℝ := min (max (scaledV - (row : ℝ)) 0) (999999 / 1000000)
  let k := row * g + col
  if k < 0 then none
  else
    match cache.cells[k.toNat]? with
    | none => none
    | some cell =>
      let triangle :=
        if cell.isBackslash ∧ localV < localU then cell.tri1
        else if (¬ cell.isBackslash) ∧ 1 < localU + localV then cell.tri1
        else cell.tri0
      some (triangle.tidx, computeBarycentric2D localU localV (castUV triangle.uv))

/-- The dot product used by the `useFrame` hysteresis check in
`src/OctahedralImpostor.jsx`. -/
def dotV3 (a b : ℝ × ℝ × ℝ) : ℝ := a.1 * b.1 + a.2.1 * b.2.1 + a.2.2 * b.2.2

/-- The per-instance state touched by the `useFrame` callback: the stored
last view direction (`lastDirectionRef`) and the shader-visible uniform
values (`faceIndicesUniform`, `faceWeightsUniform`). -/
structure ImpostorUniforms where
  lastDirection : Option (ℝ × ℝ × ℝ)
  faceIndices : ℤ × ℤ × ℤ
  faceWeights : ℝ × ℝ × ℝ

/-- The tail of the `useFrame` callback after the hysteresis check: run the
sampling-cache lookup; on failure leave everything unchanged, on success
write the uniforms and store the new direction. -/
noncomputable def frameApplySample (cache : SamplingCache) (viewDir : ℝ × ℝ × ℝ)
    (st : ImpostorUniforms) : ImpostorUniforms :=
  match sampleOctahedralDirection viewDir cache with
  | none => st
  | some (idx, w) => ⟨some viewDir, idx, w⟩

/-- The `useFrame` callback of `OctahedralImpostor.jsx` (lines 208–250),
given the precomputed `directionThresholdDot = cos(clamped threshold)` and
the current frame's view direction: if a last direction exists and
`lastDir · viewDir >= directionThresholdDot`, return with no change;
otherwise sample and update. -/
noncomputable def frameUpdate (cache : SamplingCache) (directionThresholdDot : ℝ)
    (viewDir : ℝ × ℝ × ℝ) (st : ImpostorUniforms) : ImpostorUniforms :=
  match st.lastDirection with
  | some prev =>
    if directionThresholdDot ≤ dotV3 prev viewDir then st
    else frameApplySample cache viewDir st
  | none => frameApplySample cache viewDir st

/-- The cell-visiting loop of `generateAtlas` in
`src/hooks/useOctahedralAtlas.js` (lines 316–337): `rowIdx` and `colIdx`
both range over `0 .. numCells` inclusive, `flatIdx = rowIdx * numCells +
colIdx`, and a position is composited only if `flatIdx * 3 + 2 <
pntOct.length` (the flat array has `3 *` as many entries as there are
points).  Returns the list of `((rowIdx, colIdx), flatIdx)` actually
composited, in visit order. -/
def bakeVisits (numCells : ℤ) (pnts : List Vec3Q) : List ((ℕ × ℕ) × ℤ) :=
  (List.range (numCells + 1).toNat).flatMap (fun (rowIdx : ℕ) =>
    (List.range (numCells + 1).toNat).filterMap (fun (colIdx : ℕ) =>
      let flatIdx := (rowIdx : ℤ) * numCells + (colIdx : ℤ)
      if flatIdx * 3 + 2 < 3 * (pnts.length : ℤ) then some ((rowIdx, colIdx), flatIdx)
      else none))

/-- State of the atlas cache protocol of `useOctahedralAtlas`: the completed
results (`atlasCache`), the in-flight bakes (`pendingAtlasPromises`), and a
counter numbering bake executions (distinct executions produce distinct
texture instances, so the number identifies the resolved texture). -/
structure AtlasState where
  cache : String → Option ℕ
  pending : String → Option ℕ
  next : ℕ

/-- One bake request for `key` (the effect body of `useOctahedralAtlas`,
lines 64–148, which JS runs to completion atomically): a completed result is
reused; an in-flight bake is awaited; otherwise a new bake starts and is
registered in the pending map before control is yielded.  Returns the bake
number this requester resolves to, whether a new bake execution started, and
the new state. -/
def requestAtlas (key : String) (s : AtlasState) : ℕ × Bool × AtlasState :=
  match s.cache key with
  | some b => (b, false, s)
  | none =>
    match s.pending key with
    | some b => (b, false, s)
    | none =>
      (s.next, true,
        ⟨s.cache, fun k => if k = key then some s.next else s.pending k, s.next + 1⟩)

/-- Successful completion of the in-flight bake for `key`: the `.then`
handler stores the payload in `atlasCache`, and the `.finally` handler then
deletes the pending entry. -/
def completeOk (key : String) (s : AtlasState) : AtlasState :=
  match s.pending key with
  | some b =>
    ⟨fun k => if k = key then some b else s.cache k,
     fun k => if k = key then none else s.pending k, s.next⟩
  | none => s

/-- Failed completion for `key`: the error path never stores into
`atlasCache`; the `.finally` handler deletes the pending entry. -/
def completeErr (key : String) (s : AtlasState) : AtlasState :=
  ⟨s.cache, fun k => if k = key then none else s.pending k, s.next⟩

/-- Events of the atlas protocol, interleaved by the single-threaded JS
scheduler. -/
inductive AtlasEvent where
  | req (key : String)
  | ok (key : String)
  | err (key : String)
deriving DecidableEq

/-- Process one event. -/
def stepEvent (s : AtlasState) : AtlasEvent → AtlasState
  | .req k => (requestAtlas k s).2.2
  | .ok k => completeOk k s
  | .err k => completeErr k s

/-- Process a list of events in order. -/
def runTrace (s : AtlasState) (l : List AtlasEvent) : AtlasState :=
  l.foldl stepEvent s

/-- A state is well formed when a key never has a cached result and a
pending bake with different numbers (true of every state the protocol
reaches: the pending entry is deleted right after the cache entry it just
produced is stored). -/
def WellFormedAtlas (s : AtlasState) : Prop :=
  ∀ k b b2, s.cache k = some b → s.pending k = some b2 → b = b2

/-! ## Helper lemmas -/

/-- Length of a `flatMap` whose blocks all have the same length. -/
theorem length_flatMap_const {α β : Type} (l : List α) (f : α → List β) (c : ℕ)
    (h : ∀ a ∈ l, (f a).length = c) : (l.flatMap f).length = c * l.length := by
  induction l with
  | nil => simp
  | cons a l ih =>
    simp only [List.flatMap_cons, List.length_append, List.length_cons]
    rw [h a (List.mem_cons_self a l), ih (fun b hb => h b (List.mem_cons_of_mem a hb))]
    ring

/-- Element `c*k + j` of a `flatMap` with constant block length `c` is element
`j` of block `k`. -/
theorem getD_flatMap_const {α β : Type} (l : List α) (f : α → List β) (c : ℕ)
    (h : ∀ a ∈ l, (f a).length = c) (k j : ℕ) (d : β)
    (hk : k < l.length) (hj : j < c) :
    (l.flatMap f).getD (c * k + j) d = (f (l.get ⟨k, hk⟩)).getD j d := by
  induction l generalizing k with
  | nil => simp at hk
  | cons a l ih =>
    cases k with
    | zero =>
      have ha := h a (List.mem_cons_self a l)
      simp only [List.flatMap_cons, Nat.mul_zero, Nat.zero_add, List.get]
      rw [List.getD_eq_getElem?_getD, List.getElem?_append_left (by omega),
        ← List.getD_eq_getElem?_getD]
    | succ k =>
      have ha := h a (List.mem_cons_self a l)
      have hk2 : k < l.length := by simpa using hk
      simp only [List.flatMap_cons, List.get]
      have hidx : c * (k + 1) + j = c * k + j + c := by ring
      rw [hidx, List.getD_eq_getElem?_getD,
        List.getElem?_append_right (by rw [ha]; exact Nat.le_add_left c (c * k + j)),
        ha, Nat.add_sub_cancel, ← List.getD_eq_getElem?_getD]
      exact ih (fun b hb => h b (List.mem_cons_of_mem a hb)) k hk2

/-- A `filterMap` whose function always returns `some` is a `map`. -/
theorem filterMap_eq_map_of_some {α β : Type} (l : List α) (f : α → Option β) (g : α → β)
    (h : ∀ a ∈ l, f a = some (g a)) : l.filterMap f = l.map g := by
  induction l with
  | nil => simp
  | cons a l ih =>
    rw [List.filterMap_cons, h a (List.mem_cons_self a l), List.map_cons,
      ih (fun b hb => h b (List.mem_cons_of_mem a hb))]

/-- `getD` at an in-range position is an element of the list. -/
theorem getD_mem_of_lt {α : Type} (l : List α) (n : ℕ) (d : α) (h : n < l.length) :
    l.getD n d ∈ l := by
  rw [List.getD_eq_getElem?_getD, List.getElem?_eq_getElem h]
  exact List.getElem_mem h

/-- `createGrid` produces `(yCells+1)·(xCells+1)` points (as naturals via
`toNat`, matching the JS loop bounds). -/
theorem createGrid_length (xCells yCells : ℤ) (w h : ℚ) (uc : Bool) :
    (createGrid xCells yCells w h uc).length =
      (xCells + 1).toNat * (yCells + 1).toNat := by
  unfold createGrid
  rw [length_flatMap_const _ _ ((xCells + 1).toNat)
    (by intro a _; simp)]
  simp [List.length_range]

/-- Each cell contributes exactly six indices. -/
theorem octCellIndices_length (isFull xLen xHalf yHalf : ℤ) (y x : ℕ) :
    (octCellIndices isFull xLen xHalf yHalf y x).length = 6 := by
  unfold octCellIndices
  split <;> rfl

/-- `octPlaneIndices` produces `6 · yCells · xCells` indices. -/
theorem octPlaneIndices_length (isFull xCells yCells : ℤ) :
    (octPlaneIndices isFull xCells yCells).length =
      6 * (yCells.toNat * xCells.toNat) := by
  unfold octPlaneIndices
  rw [length_flatMap_const _ _ (6 * xCells.toNat) (fun y _ => by
    rw [length_flatMap_const _ _ 6 (fun x _ => octCellIndices_length _ _ _ _ _ _)]
    simp [List.length_range])]
  simp only [List.length_range]
  ring

/-- Every index emitted by `octPlaneIndices` for a `g × g` grid, `g ≥ 1`,
references an existing vertex: it lies in `[0, (g+1)² - 1]`. -/
theorem octPlaneIndices_mem_bound (isFull g : ℤ) (hg : 1 ≤ g) :
    ∀ e ∈ octPlaneIndices isFull g g, 0 ≤ e ∧ e < (g + 1) ^ 2 := by
  intro e he
  unfold octPlaneIndices at he
  rw [List.mem_flatMap] at he
  obtain ⟨y, hy, he⟩ := he
  rw [List.mem_flatMap] at he
  obtain ⟨x, hx, he⟩ := he
  rw [List.mem_range] at hy hx
  have hyz : (y : ℤ) < g := by omega
  have hxz : (x : ℤ) < g := by omega
  have hy0 : (0 : ℤ) ≤ y := Int.ofNat_nonneg y
  have hx0 : (0 : ℤ) ≤ x := Int.ofNat_nonneg x
  unfold octCellIndices at he
  split at he <;> simp only [List.mem_cons, List.not_mem_nil, or_false] at he <;>
    rcases he with h | h | h | h | h | h <;> subst h <;> constructor <;> nlinarith

/-- The hemisphere fold always produces a point of the shape
`(x, 1 - |x| - |z|, z)`. -/
theorem octHemiPre_shape (p : Vec3Q) :
    ∃ x z : ℚ, octHemiPre p = (x, 1 - |x| - |z|, z) :=
  ⟨_, _, rfl⟩

/-- The full fold also always produces a point of the shape
`(x, 1 - |x| - |z|, z)` — in particular its `y` is never negative, because
the southern branch recomputes `y` from the reflected `x, z`. -/
theorem octFullPre_shape (p : Vec3Q) :
    ∃ x z : ℚ, octFullPre p = (x, 1 - |x| - |z|, z) := by
  unfold octFullPre
  dsimp only
  split
  · exact ⟨_, _, rfl⟩
  · exact ⟨_, _, rfl⟩

/-- A point of the shape `(x, 1 - |x| - |z|, z)` is never the origin, so the
normalization step never divides by zero. -/
theorem sqNormQ_shape_ne (x z : ℚ) : sqNormQ (x, 1 - |x| - |z|, z) ≠ 0 := by
  intro h
  unfold sqNormQ at h
  simp only at h
  have hx2 : x ^ 2 = 0 := by nlinarith [sq_nonneg x, sq_nonneg (1 - |x| - |z|), sq_nonneg z]
  have hz2 : z ^ 2 = 0 := by nlinarith [sq_nonneg x, sq_nonneg (1 - |x| - |z|), sq_nonneg z]
  have hx : x = 0 := by
    have := sq_nonneg x
    nlinarith [abs_nonneg x, sq_abs x]
  have hz : z = 0 := by
    nlinarith [abs_nonneg z, sq_abs z]
  rw [hx, hz] at h
  simp at h

/-- The normalize-and-scale step maps any nonzero point to a point whose
squared norm is exactly `(1/2)²` (norm equal to the fixed radius `0.5`). -/
theorem normalizeScale_normSq (p : Vec3Q) (h : sqNormQ p ≠ 0) :
    (normalizeScale p).1 ^ 2 + (normalizeScale p).2.1 ^ 2 + (normalizeScale p).2.2 ^ 2
      = (1/2) ^ 2 := by
  have h0 : (0 : ℚ) ≤ sqNormQ p := by unfold sqNormQ; positivity
  have hpos : (0 : ℝ) < ((sqNormQ p : ℚ) : ℝ) := by
    exact_mod_cast lt_of_le_of_ne h0 (Ne.symm h)
  have hsq : Real.sqrt ((sqNormQ p : ℚ) : ℝ) ^ 2 = ((sqNormQ p : ℚ) : ℝ) :=
    Real.sq_sqrt hpos.le
  have hne : Real.sqrt ((sqNormQ p : ℚ) : ℝ) ≠ 0 := (Real.sqrt_pos.mpr hpos).ne'
  have hcast : ((sqNormQ p : ℚ) : ℝ) = (p.1 : ℝ) ^ 2 + (p.2.1 : ℝ) ^ 2 + (p.2.2 : ℝ) ^ 2 := by
    unfold sqNormQ; push_cast; ring
  unfold normalizeScale
  simp only
  field_simp
  nlinarith [hsq, hcast]

/-- For a known octahedron type, `buildOctahedralMesh` succeeds and its
fields are the grid, the per-point fold of the grid, and the plane indices. -/
theorem buildOctahedralMesh_ok (t g : ℤ) (ht : t = 0 ∨ t = 1) :
    buildOctahedralMesh t g = Except.ok
      ⟨createGrid g g 1 1 true,
       (createGrid g g 1 1 true).map (if t = 0 then octHemiPre else octFullPre),
       octPlaneIndices t g g⟩ := by
  rcases ht with h | h <;> subst h <;> simp [buildOctahedralMesh]

/-! ## Claim theorems -/

/-- C4: for every integer `gridSize ≥ 1` and `octType ∈ {HEMI, FULL}`,
`buildOctahedralMesh` produces exactly `(gridSize+1)²` points (both planar
and folded) and `6·gridSize²` triangle indices, and every folded output
point, after the final normalize-and-scale step, has squared Euclidean norm
exactly `(1/2)²` — i.e. norm equal to the fixed radius `0.5` (exact in the
real-number model, hence within floating-point tolerance). -/
theorem buildOctahedralMesh_counts_and_norm (t g : ℤ) (ht : t = 0 ∨ t = 1) (_hg : 1 ≤ g) :
    ∃ m : OctMesh, buildOctahedralMesh t g = Except.ok m ∧
      m.pntPlane.length = (g + 1).toNat ^ 2 ∧
      m.pntOctPre.length = (g + 1).toNat ^ 2 ∧
      m.indices.length = 6 * g.toNat ^ 2 ∧
      ∀ p ∈ m.pntOctPre,
        (normalizeScale p).1 ^ 2 + (normalizeScale p).2.1 ^ 2 + (normalizeScale p).2.2 ^ 2
          = (1/2) ^ 2 := by
  refine ⟨_, buildOctahedralMesh_ok t g ht, ?_, ?_, ?_, ?_⟩
  · rw [createGrid_length, pow_two]
  · rw [List.length_map, createGrid_length, pow_two]
  · rw [octPlaneIndices_length, pow_two]
  · intro p hp
    rw [List.mem_map] at hp
    obtain ⟨q, _, rfl⟩ := hp
    apply normalizeScale_normSq
    by_cases h0 : t = 0
    · rw [if_pos h0]
      obtain ⟨x, z, he⟩ := octHemiPre_shape q
      rw [he]
      exact sqNormQ_shape_ne x z
    · rw [if_neg h0]
      obtain ⟨x, z, he⟩ := octFullPre_shape q
      rw [he]
      exact sqNormQ_shape_ne x z

/-- Witness for C4 at `octType = HEMI`, `gridSize = 1`. -/
theorem buildOctahedralMesh_counts_and_norm_witness :
    ∃ m : OctMesh, buildOctahedralMesh 0 1 = Except.ok m ∧
      m.pntPlane.length = ((1 : ℤ) + 1).toNat ^ 2 ∧
      m.pntOctPre.length = ((1 : ℤ) + 1).toNat ^ 2 ∧
      m.indices.length = 6 * (1 : ℤ).toNat ^ 2 ∧
      ∀ p ∈ m.pntOctPre,
        (normalizeScale p).1 ^ 2 + (normalizeScale p).2.1 ^ 2 + (normalizeScale p).2.2 ^ 2
          = (1/2) ^ 2 :=
  buildOctahedralMesh_counts_and_norm 0 1 (Or.inl rfl) (by norm_num)

/-- C7 (counterexample): `buildOctahedralMesh` with the non-positive grid
size `-1` and a known octahedron type does *not* fail — it returns a
(degenerate, empty) mesh, so a non-positive grid size is not a fatal
configuration error in the code. -/
theorem buildOctahedralMesh_neg_grid_returns_ok :
    buildOctahedralMesh 0 (-1) = Except.ok ⟨[], [], []⟩ := by
  rfl

/-- C7 (amended): `buildOctahedralMesh` performs no grid-size validation.
For every `gridSize ≤ 0` and known `octType`, it throws nothing and returns
a degenerate mesh with `(max (gridSize+1) 0)²` points and an empty index
list (for `gridSize = 0` the single point's coordinates are NaN in the
source; only the success and the sizes are asserted here). -/
theorem buildOctahedralMesh_nonpositive_grid_no_throw (t g : ℤ)
    (ht : t = 0 ∨ t = 1) (hg : g ≤ 0) :
    ∃ m : OctMesh, buildOctahedralMesh t g = Except.ok m ∧
      m.pntPlane.length = (g + 1).toNat ^ 2 ∧ m.indices = [] := by
  refine ⟨_, buildOctahedralMesh_ok t g ht, ?_, ?_⟩
  · rw [createGrid_length, pow_two]
  · unfold octPlaneIndices
    have h0 : g.toNat = 0 := by omega
    rw [h0]
    rfl

/-- Witness for C7's amended theorem at `octType = HEMI`, `gridSize = 0`. -/
theorem buildOctahedralMesh_nonpositive_grid_no_throw_witness :
    ∃ m : OctMesh, buildOctahedralMesh 0 0 = Except.ok m ∧
      m.pntPlane.length = ((0 : ℤ) + 1).toNat ^ 2 ∧ m.indices = [] :=
  buildOctahedralMesh_nonpositive_grid_no_throw 0 0 (Or.inl rfl) (by norm_num)

/-- C8: for every `octType ∉ {HEMI, FULL}` and every `gridSize`,
`buildOctahedralMesh` throws (returns an error, no partial result and no
silent fallback). -/
theorem buildOctahedralMesh_unknown_type_throws (t g : ℤ) (h0 : t ≠ 0) (h1 : t ≠ 1) :
    buildOctahedralMesh t g = Except.error ("Unknown octahedron type: " ++ toString t) := by
  unfold buildOctahedralMesh
  rw [if_neg h0, if_neg h1]

/-- Witness for C8 at `octType = 2`, `gridSize = 5`. -/
theorem buildOctahedralMesh_unknown_type_throws_witness :
    buildOctahedralMesh 2 5 = Except.error ("Unknown octahedron type: " ++ toString (2 : ℤ)) :=
  buildOctahedralMesh_unknown_type_throws 2 5 (by decide) (by decide)

/-- C10: at `gridSize = 1` the alternation key divides by `xHalf = 0`, so the
key is NaN (`none` in this model) and compares unequal to every octahedron
type; consequently, for *every* `octType`, the single cell takes the
forward-slash branch and the function returns exactly the six indices
`[1, 0, 2, 2, 3, 1]`, referencing the cell's four corners `0, 1, 2, 3`. -/
theorem octPlaneIndices_gridSize_one_forward_slash :
    altKey 0 0 (⌊(1 : ℚ) * (1/2)⌋) (⌊(1 : ℚ) * (1/2)⌋) = none ∧
    ∀ t : ℤ, octPlaneIndices t 1 1 = [1, 0, 2, 2, 3, 1] := by
  constructor
  · norm_num [altKey]
  · intro t
    have hfloor : ⌊(1 : ℚ) * (1/2)⌋ = 0 := by norm_num
    simp only [octPlaneIndices, hfloor]
    norm_num [List.range_succ, altKey, octCellIndices]
    simp

/-- C6: every input whose triangle is degenerate — absolute cross-product
denominator below the shared epsilon `1e-9`, or clamped barycentric sum
non-positive — yields exactly `(1/3, 1/3, 1/3)`; the fallback is a returned
value, never an error (the function is total). -/
theorem computeBarycentric2D_degenerate_fallback (px py : ℝ) (t : TriUV)
    (h : |baryDenom t| < epsR ∨ baryClampedSum px py t ≤ 0) :
    computeBarycentric2D px py t = (1/3, 1/3, 1/3) := by
  unfold computeBarycentric2D
  rcases h with h | h
  · rw [if_pos h]
  · by_cases hd : |baryDenom t| < epsR
    · rw [if_pos hd]
    · rw [if_neg hd, if_pos h]

/-- Witness for C6 at the fully collapsed triangle. -/
theorem computeBarycentric2D_degenerate_fallback_witness :
    |baryDenom ((0, 0), (0, 0), (0, 0))| < epsR ∧
      computeBarycentric2D 0 0 ((0, 0), (0, 0), (0, 0)) = (1/3, 1/3, 1/3) :=
  ⟨by norm_num [baryDenom, epsR],
   computeBarycentric2D_degenerate_fallback 0 0 _ (Or.inl (by norm_num [baryDenom, epsR]))⟩

/-- The barycentric computation always returns three nonnegative weights
summing to exactly 1 (in the real-number model), on every input. -/
theorem computeBarycentric2D_valid (px py : ℝ) (t : TriUV) :
    0 ≤ (computeBarycentric2D px py t).1 ∧ 0 ≤ (computeBarycentric2D px py t).2.1 ∧
    0 ≤ (computeBarycentric2D px py t).2.2 ∧
    (computeBarycentric2D px py t).1 + (computeBarycentric2D px py t).2.1 +
      (computeBarycentric2D px py t).2.2 = 1 := by
  unfold computeBarycentric2D
  by_cases hd : |baryDenom t| < epsR
  · rw [if_pos hd]
    norm_num
  · rw [if_neg hd]
    by_cases hs : baryClampedSum px py t ≤ 0
    · rw [if_pos hs]
      norm_num
    · rw [if_neg hs]
      have hpos : 0 < baryClampedSum px py t := lt_of_not_le hs
      dsimp only
      refine ⟨div_nonneg (le_max_right _ _) hpos.le,
        div_nonneg (le_max_right _ _) hpos.le,
        div_nonneg (le_max_right _ _) hpos.le, ?_⟩
      rw [div_add_div_same, div_add_div_same]
      have hsum : max (1 - (baryRawVW px py t).1 - (baryRawVW px py t).2) 0 +
          max (baryRawVW px py t).1 0 + max (baryRawVW px py t).2 0 =
          baryClampedSum px py t := rfl
      rw [hsum, div_self hpos.ne']

/-- For a known octahedron type, `buildSamplingCache` succeeds and its cells
are `mkCell` of the plane indices, cell by cell. -/
theorem buildSamplingCache_ok (t g : ℤ) (ht : t = 0 ∨ t = 1) :
    buildSamplingCache t g = Except.ok
      ⟨g, t, (List.range (g * g).toNat).map
        (fun k => mkCell (octPlaneIndices t g g) (g + 1) k)⟩ := by
  unfold buildSamplingCache
  rw [buildOctahedralMesh_ok t g ht]
  rfl

/-- Each triangle-vertex index stored by `mkCell` is an element of the index
buffer it was read from, provided the six read positions are in range. -/
theorem mkCell_mem (idxList : List ℤ) (stride : ℤ) (k : ℕ)
    (hlen : 6 * k + 5 < idxList.length) :
    (mkCell idxList stride k).tri0.tidx.1 ∈ idxList ∧
    (mkCell idxList stride k).tri0.tidx.2.1 ∈ idxList ∧
    (mkCell idxList stride k).tri0.tidx.2.2 ∈ idxList ∧
    (mkCell idxList stride k).tri1.tidx.1 ∈ idxList ∧
    (mkCell idxList stride k).tri1.tidx.2.1 ∈ idxList ∧
    (mkCell idxList stride k).tri1.tidx.2.2 ∈ idxList := by
  unfold mkCell
  dsimp only
  split <;>
    exact ⟨getD_mem_of_lt _ _ _ (by omega), getD_mem_of_lt _ _ _ (by omega),
      getD_mem_of_lt _ _ _ (by omega), getD_mem_of_lt _ _ _ (by omega),
      getD_mem_of_lt _ _ _ (by omega), getD_mem_of_lt _ _ _ (by omega)⟩

/-- The clamp `min (max a 0) (g-1)` lands in `[0, g-1]` when `g ≥ 1`. -/
theorem clamp_bounds (a g : ℤ) (hg : 1 ≤ g) :
    0 ≤ min (max a 0) (g - 1) ∧ min (max a 0) (g - 1) ≤ g - 1 :=
  ⟨le_min (le_max_right a 0) (by omega), min_le_right _ _⟩

/-- An if-chain selecting between the two triangles of a cell yields one of
the two triangles. -/
theorem ite_tri_cases {α : Type} (P Q : Prop) [Decidable P] [Decidable Q] (a b : α) :
    (if P then b else if Q then b else a) = a ∨ (if P then b else if Q then b else a) = b := by
  split_ifs <;> simp

/-- Conversion from a strict upper bound to the inclusive form used in the
claims. -/
theorem lt_imp_le_sub_one (e B : ℤ) (he : e < B) : e ≤ B - 1 := by omega

/-- Core specification of `sampleOctahedralDirection` on a cache built by
`buildSamplingCache` for `octType ∈ {HEMI, FULL}` and `gridSize ≥ 1`: the
lookup always succeeds, the three weights are nonnegative and sum to 1, and
the three vertex indices lie in `[0, (gridSize+1)² - 1]`. -/
theorem sampleOctahedralDirection_spec (t g : ℤ) (c : SamplingCache)
    (ht : t = 0 ∨ t = 1) (hg : 1 ≤ g) (hc : buildSamplingCache t g = Except.ok c)
    (dir : ℝ × ℝ × ℝ) :
    ∃ idx w, sampleOctahedralDirection dir c = some (idx, w) ∧
      (0 ≤ w.1 ∧ 0 ≤ w.2.1 ∧ 0 ≤ w.2.2 ∧ w.1 + w.2.1 + w.2.2 = 1) ∧
      (0 ≤ idx.1 ∧ idx.1 ≤ (g + 1) ^ 2 - 1) ∧
      (0 ≤ idx.2.1 ∧ idx.2.1 ≤ (g + 1) ^ 2 - 1) ∧
      (0 ≤ idx.2.2 ∧ idx.2.2 ≤ (g + 1) ^ 2 - 1) := by
  rw [buildSamplingCache_ok t g ht] at hc
  obtain rfl := (Except.ok.inj hc).symm
  unfold sampleOctahedralDirection
  dsimp only
  set col := min (max ⌊(encodeDirectionToOctUV dir).1 * (g : ℝ)⌋ 0) (g - 1) with hcoldef
  set row := min (max ⌊(encodeDirectionToOctUV dir).2 * (g : ℝ)⌋ 0) (g - 1) with hrowdef
  have hcol := clamp_bounds ⌊(encodeDirectionToOctUV dir).1 * (g : ℝ)⌋ g hg
  have hrow := clamp_bounds ⌊(encodeDirectionToOctUV dir).2 * (g : ℝ)⌋ g hg
  rw [← hcoldef] at hcol
  rw [← hrowdef] at hrow
  have hk0 : 0 ≤ row * g + col := by nlinarith [hcol.1, hrow.1]
  have hklt : row * g + col < g * g := by nlinarith [hcol.2, hrow.2, hcol.1, hrow.1]
  rw [if_neg (not_lt.mpr hk0)]
  have hgg0 : (0 : ℤ) ≤ g * g := by nlinarith
  have hkn : (row * g + col).toNat < (g * g).toNat := by
    rw [Int.toNat_lt hk0, Int.toNat_of_nonneg hgg0]
    exact hklt
  have hget : ((List.range (g * g).toNat).map
      (fun k2 => mkCell (octPlaneIndices t g g) (g + 1) k2))[(row * g + col).toNat]? =
      some (mkCell (octPlaneIndices t g g) (g + 1) (row * g + col).toNat) := by
    rw [List.getElem?_map, List.getElem?_range hkn]
    rfl
  rw [hget]
  have hggn : (g * g).toNat = g.toNat * g.toNat := by
    have : ((g * g).toNat : ℤ) = ((g.toNat * g.toNat : ℕ) : ℤ) := by
      push_cast
      rw [Int.toNat_of_nonneg (by omega : (0 : ℤ) ≤ g)]
      exact Int.toNat_of_nonneg hgg0
    exact_mod_cast this
  have hmemlen : 6 * (row * g + col).toNat + 5 < (octPlaneIndices t g g).length := by
    rw [octPlaneIndices_length]
    have hkn2 : (row * g + col).toNat < g.toNat * g.toNat := hggn ▸ hkn
    generalize g.toNat * g.toNat = A at hkn2 ⊢
    omega
  obtain ⟨m1, m2, m3, m4, m5, m6⟩ :=
    mkCell_mem (octPlaneIndices t g g) (g + 1) (row * g + col).toNat hmemlen
  have hbound := octPlaneIndices_mem_bound t g hg
  dsimp only
  split_ifs with h1 h2
  · exact ⟨_, _, rfl, computeBarycentric2D_valid _ _ _,
      ⟨(hbound _ m4).1, lt_imp_le_sub_one _ _ (hbound _ m4).2⟩,
      ⟨(hbound _ m5).1, lt_imp_le_sub_one _ _ (hbound _ m5).2⟩,
      ⟨(hbound _ m6).1, lt_imp_le_sub_one _ _ (hbound _ m6).2⟩⟩
  · exact ⟨_, _, rfl, computeBarycentric2D_valid _ _ _,
      ⟨(hbound _ m4).1, lt_imp_le_sub_one _ _ (hbound _ m4).2⟩,
      ⟨(hbound _ m5).1, lt_imp_le_sub_one _ _ (hbound _ m5).2⟩,
      ⟨(hbound _ m6).1, lt_imp_le_sub_one _ _ (hbound _ m6).2⟩⟩
  · exact ⟨_, _, rfl, computeBarycentric2D_valid _ _ _,
      ⟨(hbound _ m1).1, lt_imp_le_sub_one _ _ (hbound _ m1).2⟩,
      ⟨(hbound _ m2).1, lt_imp_le_sub_one _ _ (hbound _ m2).2⟩,
      ⟨(hbound _ m3).1, lt_imp_le_sub_one _ _ (hbound _ m3).2⟩⟩

deriving instance DecidableEq for Except

/-- The sampling cache that `buildSamplingCache` produces for
`octType = HEMI`, `gridSize = 1` (used to instantiate witnesses and
counterexamples on a concrete cache). -/
def sampleCacheHemi1 : SamplingCache :=
  ⟨1, 0, [⟨false, ⟨(1, 0, 2), ((1, 0), (0, 0), (0, 1))⟩,
             ⟨(2, 3, 1), ((0, 1), (1, 1), (1, 0))⟩⟩]⟩

/-- The concrete value of `buildSamplingCache` at `octType = HEMI`,
`gridSize = 1`. -/
theorem buildSamplingCache_hemi1 : buildSamplingCache 0 1 = Except.ok sampleCacheHemi1 := by
  rw [buildSamplingCache_ok 0 1 (Or.inl rfl)]
  have hidx : octPlaneIndices 0 1 1 = [1, 0, 2, 2, 3, 1] := by
    have hfloor : ⌊(1 : ℚ) * (1/2)⌋ = 0 := by norm_num
    simp only [octPlaneIndices, hfloor]
    norm_num [List.range_succ, altKey, octCellIndices]
    simp
  norm_num [hidx, sampleCacheHemi1, List.range_succ, mkCell]

/-- C3: for every input direction and every built sampling cache
(`octType ∈ {HEMI, FULL}` and `gridSize ≥ 1`), `sampleOctahedralDirection`
succeeds and outputs 3 barycentric weights that are each `≥ 0` and sum to 1
(exactly, in the real-number model, hence within tolerance), and 3 vertex
indices that each lie in `[0, (gridSize+1)² − 1]`, i.e. reference an
existing vertex of the octahedral mesh's point arrays. -/
theorem sampleOctahedralDirection_weights_indices (t g : ℤ) (c : SamplingCache)
    (ht : t = 0 ∨ t = 1) (hg : 1 ≤ g) (hc : buildSamplingCache t g = Except.ok c)
    (dir : ℝ × ℝ × ℝ) :
    ∃ idx w, sampleOctahedralDirection dir c = some (idx, w) ∧
      (0 ≤ w.1 ∧ 0 ≤ w.2.1 ∧ 0 ≤ w.2.2 ∧ w.1 + w.2.1 + w.2.2 = 1) ∧
      (0 ≤ idx.1 ∧ idx.1 ≤ (g + 1) ^ 2 - 1) ∧
      (0 ≤ idx.2.1 ∧ idx.2.1 ≤ (g + 1) ^ 2 - 1) ∧
      (0 ≤ idx.2.2 ∧ idx.2.2 ≤ (g + 1) ^ 2 - 1) :=
  sampleOctahedralDirection_spec t g c ht hg hc dir

/-- Witness for C3 at `octType = HEMI`, `gridSize = 1`, direction
`(0, 1, 0)`. -/
theorem sampleOctahedralDirection_weights_indices_witness :
    ∃ idx w, sampleOctahedralDirection (0, 1, 0) sampleCacheHemi1 = some (idx, w) ∧
      (0 ≤ w.1 ∧ 0 ≤ w.2.1 ∧ 0 ≤ w.2.2 ∧ w.1 + w.2.1 + w.2.2 = 1) ∧
      (0 ≤ idx.1 ∧ idx.1 ≤ ((1 : ℤ) + 1) ^ 2 - 1) ∧
      (0 ≤ idx.2.1 ∧ idx.2.1 ≤ ((1 : ℤ) + 1) ^ 2 - 1) ∧
      (0 ≤ idx.2.2 ∧ idx.2.2 ≤ ((1 : ℤ) + 1) ^ 2 - 1) :=
  sampleOctahedralDirection_weights_indices 0 1 sampleCacheHemi1 (Or.inl rfl)
    (by norm_num) buildSamplingCache_hemi1 (0, 1, 0)

/-- C5 (counterexample): with threshold `θ = π/2` — so the precomputed
`directionThresholdDot = cos(π/2) = 0` — and previous direction `(1,0,0)`,
the new direction `(0,1,0)` has angular difference exactly `θ` (their dot
product is `0 = cos θ`).  The claim requires the update to run and the new
direction to be stored, but the frame update leaves the state (including the
stored direction `(1,0,0)`) unchanged, because the code skips when
`dot >= directionThresholdDot`, not only when the angle is strictly below
the threshold. -/
theorem frameUpdate_at_threshold_skips :
    frameUpdate sampleCacheHemi1 0 (0, 1, 0)
        ⟨some (1, 0, 0), (0, 1, 2), (1/3, 1/3, 1/3)⟩ =
      ⟨some (1, 0, 0), (0, 1, 2), (1/3, 1/3, 1/3)⟩ ∧
    dotV3 (1, 0, 0) (0, 1, 0) = 0 ∧ Real.cos (Real.pi / 2) = 0 := by
  refine ⟨?_, by norm_num [dotV3], Real.cos_pi_div_two⟩
  unfold frameUpdate
  dsimp only
  rw [if_pos (by norm_num [dotV3])]

/-- C5 (amended): for an impostor instance with a stored previous view
direction, the frame update leaves the uniform state and the stored
direction unchanged when `prev · new ≥ directionThresholdDot` (i.e. the
angular difference is at most the threshold), and when
`prev · new < directionThresholdDot` (angular difference strictly above the
threshold) it updates them via the sampling-cache lookup and stores the new
direction. -/
theorem frameUpdate_hysteresis (t g : ℤ) (c : SamplingCache) (ht : t = 0 ∨ t = 1)
    (hg : 1 ≤ g) (hc : buildSamplingCache t g = Except.ok c)
    (d : ℝ) (prev viewDir : ℝ × ℝ × ℝ) (idx : ℤ × ℤ × ℤ) (w : ℝ × ℝ × ℝ) :
    (d ≤ dotV3 prev viewDir →
      frameUpdate c d viewDir ⟨some prev, idx, w⟩ = ⟨some prev, idx, w⟩) ∧
    (dotV3 prev viewDir < d →
      ∃ i ww, sampleOctahedralDirection viewDir c = some (i, ww) ∧
        frameUpdate c d viewDir ⟨some prev, idx, w⟩ = ⟨some viewDir, i, ww⟩) := by
  constructor
  · intro hd
    unfold frameUpdate
    dsimp only
    rw [if_pos hd]
  · intro hd
    obtain ⟨i, ww, hs, _⟩ := sampleOctahedralDirection_spec t g c ht hg hc viewDir
    refine ⟨i, ww, hs, ?_⟩
    unfold frameUpdate
    dsimp only
    rw [if_neg (not_le.mpr hd)]
    unfold frameApplySample
    rw [hs]

/-- Witness for C5's amended theorem: `octType = HEMI`, `gridSize = 1`,
threshold-dot `1/2`, previous and new direction both `(1,0,0)`. -/
theorem frameUpdate_hysteresis_witness :
    ((1/2 : ℝ) ≤ dotV3 (1, 0, 0) (1, 0, 0) →
      frameUpdate sampleCacheHemi1 (1/2) (1, 0, 0)
          ⟨some (1, 0, 0), (0, 1, 2), (1/3, 1/3, 1/3)⟩ =
        ⟨some (1, 0, 0), (0, 1, 2), (1/3, 1/3, 1/3)⟩) ∧
    (dotV3 (1, 0, 0) (1, 0, 0) < 1/2 →
      ∃ i ww, sampleOctahedralDirection (1, 0, 0) sampleCacheHemi1 = some (i, ww) ∧
        frameUpdate sampleCacheHemi1 (1/2) (1, 0, 0)
            ⟨some (1, 0, 0), (0, 1, 2), (1/3, 1/3, 1/3)⟩ =
          ⟨some (1, 0, 0), i, ww⟩) :=
  frameUpdate_hysteresis 0 1 sampleCacheHemi1 (Or.inl rfl) (by norm_num)
    buildSamplingCache_hemi1 (1/2) (1, 0, 0) (1, 0, 0) (0, 1, 2) (1/3, 1/3, 1/3)

/-- Invariant tying a key to its unique bake number `b`: every registered
entry for `k` (cached or pending) equals `b`, and at least one entry is
registered. -/
def AssocHolds (k : String) (b : ℕ) (s : AtlasState) : Prop :=
  (s.cache k = some b ∨ s.cache k = none) ∧
  (s.pending k = some b ∨ s.pending k = none) ∧
  (s.cache k = some b ∨ s.pending k = some b)

/-- `AssocHolds` is preserved by any event other than an error completion of
the same key. -/
theorem assocHolds_step (k : String) (b : ℕ) (s : AtlasState) (e : AtlasEvent)
    (he : e ≠ AtlasEvent.err k) (h : AssocHolds k b s) :
    AssocHolds k b (stepEvent s e) := by
  obtain ⟨h1, h2, h3⟩ := h
  cases e with
  | req k2 =>
    show AssocHolds k b (requestAtlas k2 s).2.2
    cases hc : s.cache k2 with
    | some b2 =>
      simp only [requestAtlas, hc]
      exact ⟨h1, h2, h3⟩
    | none =>
      cases hp : s.pending k2 with
      | some b2 =>
        simp only [requestAtlas, hc, hp]
        exact ⟨h1, h2, h3⟩
      | none =>
        simp only [requestAtlas, hc, hp]
        by_cases hk : k = k2
        · subst hk
          rcases h3 with h3 | h3
          · exact absurd (h3.symm.trans hc) (by simp)
          · exact absurd (h3.symm.trans hp) (by simp)
        · refine ⟨h1, by simpa [hk] using h2, ?_⟩
          rcases h3 with h3 | h3
          · exact Or.inl h3
          · exact Or.inr (by simpa [hk] using h3)
  | ok k2 =>
    show AssocHolds k b (completeOk k2 s)
    cases hp : s.pending k2 with
    | none =>
      simp only [completeOk, hp]
      exact ⟨h1, h2, h3⟩
    | some b2 =>
      simp only [completeOk, hp]
      by_cases hk : k = k2
      · subst hk
        have hb : b2 = b := by
          rcases h2 with h2 | h2
          · exact Option.some.inj (hp.symm.trans h2)
          · exact absurd (hp.symm.trans h2) (by simp)
        subst hb
        exact ⟨Or.inl (by simp), Or.inr (by simp), Or.inl (by simp)⟩
      · refine ⟨by simpa [hk] using h1, by simpa [hk] using h2, ?_⟩
        rcases h3 with h3 | h3
        · exact Or.inl (by simpa [hk] using h3)
        · exact Or.inr (by simpa [hk] using h3)
  | err k2 =>
    have hk : k ≠ k2 := fun hh => he (by rw [hh])
    show AssocHolds k b (completeErr k2 s)
    refine ⟨h1, by simpa [completeErr, hk] using h2, ?_⟩
    rcases h3 with h3 | h3
    · exact Or.inl h3
    · exact Or.inr (by simpa [completeErr, hk] using h3)

/-- `AssocHolds` is preserved by any trace that contains no error completion
for the key. -/
theorem assocHolds_runTrace (k : String) (b : ℕ) (l : List AtlasEvent) :
    ∀ s : AtlasState, AtlasEvent.err k ∉ l → AssocHolds k b s →
      AssocHolds k b (runTrace s l) := by
  induction l with
  | nil => exact fun s _ h => h
  | cons e l ih =>
    intro s hl h
    have he : e ≠ AtlasEvent.err k := fun hh => hl (hh ▸ List.mem_cons_self e l)
    exact ih (stepEvent s e) (fun hm => hl (List.mem_cons_of_mem e hm))
      (assocHolds_step k b s e he h)

/-- Immediately after a request on a well-formed state, the key is
associated to the bake number the requester resolved to. -/
theorem requestAtlas_assoc (k : String) (s : AtlasState) (hwf : WellFormedAtlas s) :
    AssocHolds k (requestAtlas k s).1 (requestAtlas k s).2.2 := by
  cases hc : s.cache k with
  | some b =>
    simp only [requestAtlas, hc]
    refine ⟨Or.inl hc, ?_, Or.inl hc⟩
    cases hp : s.pending k with
    | some b2 => exact Or.inl (by rw [hwf k b b2 hc hp])
    | none => exact Or.inr rfl
  | none =>
    cases hp : s.pending k with
    | some b2 =>
      simp only [requestAtlas, hc, hp]
      exact ⟨Or.inr hc, Or.inl hp, Or.inr hp⟩
    | none =>
      simp only [requestAtlas, hc, hp]
      exact ⟨Or.inr hc, Or.inl (by simp), Or.inr (by simp)⟩

/-- A request on a state where the key is associated to `b` resolves to `b`
and starts no new bake. -/
theorem requestAtlas_of_assoc (k : String) (b : ℕ) (s : AtlasState)
    (h : AssocHolds k b s) :
    (requestAtlas k s).1 = b ∧ (requestAtlas k s).2.1 = false := by
  obtain ⟨h1, h2, h3⟩ := h
  cases hc : s.cache k with
  | some b2 =>
    have hb : b2 = b := by
      rcases h1 with h1 | h1
      · exact Option.some.inj (hc.symm.trans h1)
      · exact absurd (hc.symm.trans h1) (by simp)
    simp only [requestAtlas, hc]
    exact ⟨hb, trivial⟩
  | none =>
    rcases h3 with h3 | h3
    · exact absurd (h3.symm.trans hc) (by simp)
    · simp only [requestAtlas, hc, h3]
      exact ⟨trivial, trivial⟩

/-- A request starts a bake exactly when the key is completely fresh (no
cached result and no in-flight bake). -/
theorem requestAtlas_started_iff_fresh (k : String) (s : AtlasState) :
    (requestAtlas k s).2.1 = true ↔ s.cache k = none ∧ s.pending k = none := by
  cases hc : s.cache k with
  | some b => simp [requestAtlas, hc]
  | none =>
    cases hp : s.pending k with
    | some b => simp [requestAtlas, hc, hp]
    | none => simp [requestAtlas, hc, hp]

/-- C9: atlas bake deduplication.  From any well-formed state: a first
request for `key` resolves to some bake number; after any further events
that do not error-complete `key` (in particular while the first bake is
still pending, and after it completes successfully), a second request for
the same key resolves to the *same* bake number — the same texture
instance — and starts no second bake execution.  Moreover a request starts
a bake exactly when the key has no cached result and no in-flight bake, so
for a fresh key two concurrent requests cause exactly one bake execution
and no two bakes for the same key are ever in flight simultaneously. -/
theorem atlasBake_dedup (s : AtlasState) (key : String) (l : List AtlasEvent)
    (hwf : WellFormedAtlas s) (hl : AtlasEvent.err key ∉ l) :
    (requestAtlas key (runTrace (requestAtlas key s).2.2 l)).1 = (requestAtlas key s).1 ∧
    (requestAtlas key (runTrace (requestAtlas key s).2.2 l)).2.1 = false ∧
    ((requestAtlas key s).2.1 = true ↔ s.cache key = none ∧ s.pending key = none) := by
  have h1 := requestAtlas_assoc key s hwf
  have h2 := assocHolds_runTrace key (requestAtlas key s).1 l (requestAtlas key s).2.2 hl h1
  have h3 := requestAtlas_of_assoc key (requestAtlas key s).1 _ h2
  exact ⟨h3.1, h3.2, requestAtlas_started_iff_fresh key s⟩

/-- Witness for C9: the empty initial state (both maps empty), a fresh key,
and the empty interleaving. -/
theorem atlasBake_dedup_witness :
    (requestAtlas "tree" (runTrace (requestAtlas "tree"
        ⟨fun _ => none, fun _ => none, 0⟩).2.2 [])).1 =
      (requestAtlas "tree" ⟨fun _ => none, fun _ => none, 0⟩).1 ∧
    (requestAtlas "tree" (runTrace (requestAtlas "tree"
        ⟨fun _ => none, fun _ => none, 0⟩).2.2 [])).2.1 = false ∧
    ((requestAtlas "tree" ⟨fun _ => none, fun _ => none, 0⟩).2.1 = true ↔
      (⟨fun _ => none, fun _ => none, 0⟩ : AtlasState).cache "tree" = none ∧
      (⟨fun _ => none, fun _ => none, 0⟩ : AtlasState).pending "tree" = none) :=
  atlasBake_dedup ⟨fun _ => none, fun _ => none, 0⟩ "tree" []
    (fun _ _ _ h => by simp at h) (by simp)

/-- `flatMap` respects pointwise equality on the list's members. -/
theorem flatMap_congr_mem {α β : Type} (l : List α) (f f2 : α → List β)
    (h : ∀ a ∈ l, f a = f2 a) : l.flatMap f = l.flatMap f2 := by
  induction l with
  | nil => rfl
  | cons a l ih =>
    rw [List.flatMap_cons, List.flatMap_cons, h a (List.mem_cons_self a l),
      ih (fun b hb => h b (List.mem_cons_of_mem a hb))]

/-- C2 (amended): during atlas baking all `(gridSize+1)²` grid positions
`(rowIdx, colIdx)` are composited (the pixel-read guard never skips), but
the lattice index whose folded point supplies the view direction for the
cell at `(rowIdx, colIdx)` is `rowIdx * gridSize + colIdx` — the row stride
is `gridSize`, not `gridSize + 1` — so every used lattice index is at most
`gridSize² + gridSize`, and the last `gridSize` lattice points
(`gridSize² + gridSize + 1 … (gridSize+1)² − 1`) are never used. -/
theorem bakeVisits_all_positions (t g : ℤ) (ht : t = 0 ∨ t = 1) (hg : 1 ≤ g)
    (m : OctMesh) (hm : buildOctahedralMesh t g = Except.ok m) :
    bakeVisits g m.pntOctPre =
      (List.range (g + 1).toNat).flatMap (fun (r : ℕ) =>
        (List.range (g + 1).toNat).map (fun (c : ℕ) => ((r, c), (r : ℤ) * g + c))) ∧
    (∀ pr ∈ bakeVisits g m.pntOctPre, pr.2 ≤ g * g + g) ∧
    g * g + g < (g + 1) ^ 2 - 1 + 1 := by
  rw [buildOctahedralMesh_ok t g ht] at hm
  obtain rfl := (Except.ok.inj hm).symm
  have hg1 : (0 : ℤ) ≤ g + 1 := by omega
  have hlen : (((createGrid g g 1 1 true).map
      (if t = 0 then octHemiPre else octFullPre)).length : ℤ) = (g + 1) ^ 2 := by
    rw [List.length_map, createGrid_length]
    push_cast [Int.toNat_of_nonneg hg1]
    ring
  have hcast : ∀ r : ℕ, r < (g + 1).toNat → (r : ℤ) ≤ g := by
    intro r hr
    have : (r : ℤ) < ((g + 1).toNat : ℤ) := by exact_mod_cast hr
    rw [Int.toNat_of_nonneg hg1] at this
    omega
  have hguard : ∀ r c : ℕ, r < (g + 1).toNat → c < (g + 1).toNat →
      ((r : ℤ) * g + (c : ℤ)) * 3 + 2 <
        3 * (((createGrid g g 1 1 true).map
          (if t = 0 then octHemiPre else octFullPre)).length : ℤ) := by
    intro r c hr hc
    rw [hlen]
    have h1 := hcast r hr
    have h2 := hcast c hc
    have h3 : (0 : ℤ) ≤ (r : ℤ) := Int.ofNat_nonneg r
    have h4 : (0 : ℤ) ≤ (c : ℤ) := Int.ofNat_nonneg c
    nlinarith
  have heq : bakeVisits g ((createGrid g g 1 1 true).map
      (if t = 0 then octHemiPre else octFullPre)) =
      (List.range (g + 1).toNat).flatMap (fun (r : ℕ) =>
        (List.range (g + 1).toNat).map (fun (c : ℕ) => ((r, c), (r : ℤ) * g + c))) := by
    unfold bakeVisits
    apply flatMap_congr_mem
    intro r hr
    rw [List.mem_range] at hr
    apply filterMap_eq_map_of_some
    intro c hc
    rw [List.mem_range] at hc
    dsimp only
    rw [if_pos (hguard r c hr hc)]
  refine ⟨heq, ?_, by nlinarith⟩
  intro pr hpr
  rw [heq, List.mem_flatMap] at hpr
  obtain ⟨r, hr, hpr⟩ := hpr
  rw [List.mem_map] at hpr
  obtain ⟨c, hc, rfl⟩ := hpr
  rw [List.mem_range] at hr hc
  have h1 := hcast r hr
  have h2 := hcast c hc
  have h3 : (0 : ℤ) ≤ (r : ℤ) := Int.ofNat_nonneg r
  show (r : ℤ) * g + (c : ℤ) ≤ g * g + g
  nlinarith

/-- Witness for C2's amended theorem at `octType = HEMI`, `gridSize = 1`. -/
theorem bakeVisits_all_positions_witness :
    ∃ m : OctMesh, buildOctahedralMesh 0 1 = Except.ok m ∧
      (bakeVisits 1 m.pntOctPre =
        (List.range ((1 : ℤ) + 1).toNat).flatMap (fun (r : ℕ) =>
          (List.range ((1 : ℤ) + 1).toNat).map (fun (c : ℕ) => ((r, c), (r : ℤ) * 1 + c))) ∧
      (∀ pr ∈ bakeVisits 1 m.pntOctPre, pr.2 ≤ 1 * 1 + 1) ∧
      (1 : ℤ) * 1 + 1 < ((1 : ℤ) + 1) ^ 2 - 1 + 1) :=
  ⟨_, buildOctahedralMesh_ok 0 1 (Or.inl rfl),
    bakeVisits_all_positions 0 1 (Or.inl rfl) (by norm_num) _
      (buildOctahedralMesh_ok 0 1 (Or.inl rfl))⟩

/-- The mesh `buildOctahedralMesh` produces for `octType = HEMI`,
`gridSize = 1`. -/
def hemiMesh1 : OctMesh := (buildOctahedralMesh 0 1).toOption.getD ⟨[], [], []⟩

/-- C2 (counterexample): at `octType = HEMI`, `gridSize = 1`, the bake loop
composites the four grid positions with view-direction lattice indices
`[0, 1, 1, 2]`: position `(1, 0)` uses lattice index `1·1+0 = 1`, not
`1·(1+1)+0 = 2` as the claim states, and the two indices differ in
direction (the folded point at index `1` is `(1,0,0)`, at index `2` it is
`(-1,0,0)`; their normalize-and-scale x-components are `1/2` and `-1/2`).
Moreover lattice index `3` never occurs, although the planar grid has
`(gridSize+1)² = 4` lattice points, refuting that every lattice point is
visited. -/
theorem bakeVisits_cex :
    buildOctahedralMesh 0 1 = Except.ok hemiMesh1 ∧
    bakeVisits 1 hemiMesh1.pntOctPre = [((0, 0), 0), ((0, 1), 1), ((1, 0), 1), ((1, 1), 2)] ∧
    hemiMesh1.pntOctPre = [(0, 0, -1), (1, 0, 0), (-1, 0, 0), (0, 0, 1)] ∧
    (normalizeScale (1, 0, 0)).1 = 1/2 ∧ (normalizeScale (-1, 0, 0)).1 = -1/2 := by
  have hgrid : createGrid 1 1 1 1 true =
      [(-1/2, 0, -1/2), (1/2, 0, -1/2), (-1/2, 0, 1/2), (1/2, 0, 1/2)] := by
    unfold createGrid
    norm_num
    rw [show List.range (Int.toNat 2) = [0, 1] from rfl]
    norm_num
  have hmesh : hemiMesh1 = ⟨createGrid 1 1 1 1 true,
      (createGrid 1 1 1 1 true).map octHemiPre, octPlaneIndices 0 1 1⟩ := by
    unfold hemiMesh1
    rw [buildOctahedralMesh_ok 0 1 (Or.inl rfl)]
    rfl
  have hpnt : hemiMesh1.pntOctPre = [(0, 0, -1), (1, 0, 0), (-1, 0, 0), (0, 0, 1)] := by
    rw [hmesh]
    dsimp only
    rw [hgrid]
    norm_num [octHemiPre, abs]
  refine ⟨?_, ?_, hpnt, ?_, ?_⟩
  · unfold hemiMesh1
    rw [buildOctahedralMesh_ok 0 1 (Or.inl rfl)]
    rfl
  · rw [hpnt]
    unfold bakeVisits
    norm_num
    rw [show List.range (Int.toNat 2) = [0, 1] from rfl]
    norm_num [List.filterMap_cons]
  · norm_num [normalizeScale, sqNormQ, Real.sqrt_one]
  · norm_num [normalizeScale, sqNormQ, Real.sqrt_one]

/-- C1 (counterexample): the first lattice point of the `gridSize = 1` grid
is the planar point `(-1/2, 0, -1/2)`, whose lattice UV is `(0, 0)`.
Encoding its folded octahedron point returns `(1/2, 1/1000000002)` for HEMI
and `(1/2, 1/2)` for FULL — not `(0, 0)` — so `encodeDirectionToOctUV` is
not the inverse of the geometry fold for either octahedron type. -/
theorem encodeDirectionToOctUV_not_inverse_at_corner :
    (createGrid 1 1 1 1 true).getD 0 (0, 0, 0) = (-1/2, 0, -1/2) ∧
    octHemiPre (-1/2, 0, -1/2) = (0, 0, -1) ∧
    normalizeScale (0, 0, -1) = (0, 0, -(1/2)) ∧
    encodeDirectionToOctUV (0, 0, -(1/2)) = (1/2, 1/1000000002) ∧
    octFullPre (-1/2, 0, -1/2) = (0, 1, 0) ∧
    normalizeScale (0, 1, 0) = (0, 1/2, 0) ∧
    encodeDirectionToOctUV (0, 1/2, 0) = (1/2, 1/2) := by
  refine ⟨?_, ?_, ?_, ?_, ?_, ?_, ?_⟩
  · unfold createGrid
    norm_num
    rw [show List.range (Int.toNat 2) = [0, 1] from rfl]
    norm_num
  · norm_num [octHemiPre, abs]
  · unfold normalizeScale sqNormQ
    norm_num [Real.sqrt_one]
  · unfold encodeDirectionToOctUV epsR
    rw [if_neg (by norm_num)]
    norm_num [abs]
  · norm_num [octFullPre, jsSign, abs]
  · unfold normalizeScale sqNormQ
    norm_num [Real.sqrt_one]
  · unfold encodeDirectionToOctUV epsR
    rw [if_neg (not_lt.mpr (by positivity))]
    norm_num [abs]

/-- Encoding behaviour on a normalized north-fold point
`(U/m·½, Y/m·½, V/m·½)` with `|U| + |Y| + |V| = 1`, `Y ≥ 0`, `0 < m ≤ 1`:
each output coordinate is within the shared epsilon of the ideal inverse
`(U/2 + 1/2, V/2 + 1/2)` (the epsilon in the denominator of the projection
is the only error source). -/
theorem encode_of_north (U Y V m : ℝ) (hm : 0 < m) (hmle : m ≤ 1)
    (hUle : |U| ≤ 1) (hVle : |V| ≤ 1) (hY : 0 ≤ Y) (hsum : |U| + |Y| + |V| = 1) :
    |(encodeDirectionToOctUV (U / m * (1/2), Y / m * (1/2), V / m * (1/2))).1 -
        (U / 2 + 1/2)| ≤ epsR ∧
    |(encodeDirectionToOctUV (U / m * (1/2), Y / m * (1/2), V / m * (1/2))).2 -
        (V / 2 + 1/2)| ≤ epsR := by
  have heps : (0 : ℝ) < epsR := by norm_num [epsR]
  have hm' : m ≠ 0 := hm.ne'
  have habs : ∀ x : ℝ, |x / m * (1/2)| = |x| / (2 * m) := by
    intro x
    rw [abs_mul, abs_div, abs_of_pos hm, show |(1/2 : ℝ)| = 1/2 by norm_num]
    ring
  have hden : (0 : ℝ) < 1 / (2 * m) + epsR := by positivity
  have h1p : (0 : ℝ) < 1 + 2 * epsR * m := by nlinarith
  have key : ∀ a : ℝ, |a| ≤ 1 →
      |a / m * (1/2) * (1 / (1 / (2 * m) + epsR)) * (1/2) + 1/2 - (a / 2 + 1/2)| ≤ epsR := by
    intro a ha
    have hdiff : a / m * (1/2) * (1 / (1 / (2 * m) + epsR)) * (1/2) + 1/2 - (a / 2 + 1/2)
        = -(a * epsR * m / (1 + 2 * epsR * m)) := by
      field_simp
      ring
    rw [hdiff, abs_neg, abs_div, abs_of_pos h1p, abs_mul, abs_mul,
      abs_of_pos heps, abs_of_pos hm]
    rw [div_le_iff₀ h1p]
    have ham : |a| * m ≤ 1 := mul_le_one₀ ha hm.le hmle
    nlinarith [abs_nonneg a, mul_nonneg heps.le (sub_nonneg.mpr ham),
      mul_pos heps (mul_pos heps hm)]
  unfold encodeDirectionToOctUV
  dsimp only
  rw [habs U, habs Y, habs V]
  have hc : |U| / (2 * m) + |Y| / (2 * m) + |V| / (2 * m) = 1 / (2 * m) := by
    rw [div_add_div_same, div_add_div_same, hsum]
  rw [hc]
  have hnneg : (0 : ℝ) ≤ Y / m * (1/2) * (1 / (1 / (2 * m) + epsR)) := by positivity
  rw [if_neg (not_lt.mpr hnneg)]
  exact ⟨key U hUle, key V hVle⟩

/-- C1 (amended): `encodeDirectionToOctUV` is the standard full-octahedral
encoding; it inverts the geometry fold only for `octType = FULL` on points
whose fold stays in the north branch, and only up to the shared epsilon.
For every planar point `p` with `1 - |2·p.x| - |2·p.z| ≥ 0` (the north
region, which contains every lattice point not folded through the southern
branch), encoding the normalized folded FULL point recovers the planar UV
`(p.x + 1/2, p.z + 1/2)` of the point to within `epsR = 1e-9` per
coordinate.  (For HEMI, and for FULL south-folded corners, the encoding
does not recover the lattice UV at all — see the counterexample.) -/
theorem encode_full_north_roundtrip (p : Vec3Q)
    (hy : 0 ≤ 1 - |p.1 * 2| - |p.2.2 * 2|) :
    |(encodeDirectionToOctUV (normalizeScale (octFullPre p))).1 -
        ((p.1 : ℝ) + 1/2)| ≤ epsR ∧
    |(encodeDirectionToOctUV (normalizeScale (octFullPre p))).2 -
        ((p.2.2 : ℝ) + 1/2)| ≤ epsR := by
  have hfold : octFullPre p =
      (p.1 * 2, 1 - |p.1 * 2| - |p.2.2 * 2|, p.2.2 * 2) := by
    unfold octFullPre
    dsimp only
    rw [if_neg (not_lt.mpr hy)]
  rw [hfold]
  have hSq : (0 : ℚ) < sqNormQ (p.1 * 2, 1 - |p.1 * 2| - |p.2.2 * 2|, p.2.2 * 2) := by
    have h0 : (0 : ℚ) ≤ sqNormQ (p.1 * 2, 1 - |p.1 * 2| - |p.2.2 * 2|, p.2.2 * 2) := by
      unfold sqNormQ
      positivity
    exact lt_of_le_of_ne h0 (Ne.symm (sqNormQ_shape_ne (p.1 * 2) (p.2.2 * 2)))
  have hSle1 : sqNormQ (p.1 * 2, 1 - |p.1 * 2| - |p.2.2 * 2|, p.2.2 * 2) ≤ 1 := by
    unfold sqNormQ
    dsimp only
    nlinarith [mul_nonneg (abs_nonneg (p.1 * 2)) (abs_nonneg (p.2.2 * 2)),
      mul_nonneg (abs_nonneg (p.1 * 2)) hy, mul_nonneg (abs_nonneg (p.2.2 * 2)) hy,
      sq_abs (p.1 * 2), sq_abs (p.2.2 * 2), hy, abs_nonneg (p.1 * 2), abs_nonneg (p.2.2 * 2)]
  unfold normalizeScale
  dsimp only
  have hmpos : 0 < Real.sqrt
      ((sqNormQ (p.1 * 2, 1 - |p.1 * 2| - |p.2.2 * 2|, p.2.2 * 2) : ℚ) : ℝ) :=
    Real.sqrt_pos.mpr (by exact_mod_cast hSq)
  have hmle : Real.sqrt
      ((sqNormQ (p.1 * 2, 1 - |p.1 * 2| - |p.2.2 * 2|, p.2.2 * 2) : ℚ) : ℝ) ≤ 1 :=
    Real.sqrt_le_one.mpr (by exact_mod_cast hSle1)
  have hUleQ : |p.1 * 2| ≤ 1 := by nlinarith [abs_nonneg (p.2.2 * 2)]
  have hVleQ : |p.2.2 * 2| ≤ 1 := by nlinarith [abs_nonneg (p.1 * 2)]
  have hsumQ : |p.1 * 2| + |(1 - |p.1 * 2| - |p.2.2 * 2| : ℚ)| + |p.2.2 * 2| = 1 := by
    rw [abs_of_nonneg hy]
    ring
  have hmain := encode_of_north ((p.1 * 2 : ℚ) : ℝ)
    (((1 - |p.1 * 2| - |p.2.2 * 2| : ℚ)) : ℝ) ((p.2.2 * 2 : ℚ) : ℝ)
    (Real.sqrt ((sqNormQ (p.1 * 2, 1 - |p.1 * 2| - |p.2.2 * 2|, p.2.2 * 2) : ℚ) : ℝ))
    hmpos hmle
    (by rw [← Rat.cast_abs]; exact_mod_cast hUleQ)
    (by rw [← Rat.cast_abs]; exact_mod_cast hVleQ)
    (by exact_mod_cast hy)
    (by rw [← Rat.cast_abs, ← Rat.cast_abs, ← Rat.cast_abs]; exact_mod_cast hsumQ)
  have hU2 : ((p.1 * 2 : ℚ) : ℝ) / 2 = (p.1 : ℝ) := by push_cast; ring
  have hV2 : ((p.2.2 * 2 : ℚ) : ℝ) / 2 = (p.2.2 : ℝ) := by push_cast; ring
  rw [hU2, hV2] at hmain
  exact hmain

/-- Witness for C1's amended theorem at the central planar point
`(0, 0, 0)` (lattice UV `(1/2, 1/2)`, direction `(0, 1, 0)`). -/
theorem encode_full_north_roundtrip_witness :
    (0 : ℚ) ≤ 1 - |(0 : ℚ) * 2| - |(0 : ℚ) * 2| ∧
    (|(encodeDirectionToOctUV (normalizeScale (octFullPre (0, 0, 0)))).1 -
        (((0 : ℚ) : ℝ) + 1/2)| ≤ epsR ∧
     |(encodeDirectionToOctUV (normalizeScale (octFullPre (0, 0, 0)))).2 -
        (((0 : ℚ) : ℝ) + 1/2)| ≤ epsR) :=
  ⟨by norm_num, encode_full_north_roundtrip (0, 0, 0) (by norm_num)⟩

end WebgpuImpostors
